import Mathlib

/-!
# Verification of the covariance-to-ellipse routine of Uncertainty_plotting.ipynb

The notebook defines two functions:

* `cov_to_ellipse(cov, pos, **kwargs)`: computes
  `eigvec, eigval, V = scipy.linalg.svd(cov, full_matrices=False)`,
  `theta = np.degrees(np.arctan2(eigvec[1, 0], eigvec[0, 0]))`,
  `width, height = 2 * np.sqrt(eigval)` and returns
  `Ellipse(xy=pos, width=width, height=height, angle=theta)`.
* `plot_ellipse(t, ax=None, **kwargs)`: for each row of the table `t`
  builds `cov = [[sx^2, pxy*sx*sy], [pxy*sx*sy, sy^2]]`, calls
  `cov_to_ellipse(cov, [x, y])` and adds the resulting artist to the axes,
  in row order.

The embedding below models the real-number semantics of these functions.
`scipy.linalg.svd` on the 2x2 symmetric matrices this notebook constructs is
modelled in closed form: the singular values are returned in descending order
(the documented scipy/LAPACK contract); the sign of the singular vectors is
left unspecified by the library, and the model fixes one deterministic
representative (second component nonnegative when the off-diagonal entry is
nonzero; a standard basis vector when it is zero).  Floating point is
modelled by exact real arithmetic.
-/

namespace UncertaintyPlotting

noncomputable section

/-- A row of the data table, with the column names of `data.csv`:
position `x, y`, standard deviations `sx, sy`, correlation `pxy`. -/
structure Row where
  x : ℝ
  y : ℝ
  sx : ℝ
  sy : ℝ
  pxy : ℝ

/-- A 2x2 real matrix, as built by `np.array([[.., ..], [.., ..]])`. -/
structure M2 where
  m00 : ℝ
  m01 : ℝ
  m10 : ℝ
  m11 : ℝ

/-- The matplotlib `Ellipse` artist, restricted to the fields the notebook
sets: center `xy`, full axis lengths `width` and `height`, and rotation
`angle` in degrees. -/
structure Ellipse where
  xy : ℝ × ℝ
  width : ℝ
  height : ℝ
  angle : ℝ

/-- Real-number semantics of `np.arctan2 y x` (range `(-pi, pi]`). -/
def arctan2 (y x : ℝ) : ℝ :=
  if 0 < x then Real.arctan (y / x)
  else if x < 0 then
    if 0 ≤ y then Real.arctan (y / x) + Real.pi
    else Real.arctan (y / x) - Real.pi
  else
    if 0 < y then Real.pi / 2
    else if y < 0 then -(Real.pi / 2)
    else 0

/-- Real-number semantics of `np.degrees`: radians to degrees. -/
def degrees (r : ℝ) : ℝ := r * 180 / Real.pi

/-- Discriminant-like quantity of the symmetric 2x2 matrix
`[[m00, m01], [m01, m11]]`: the gap between its two eigenvalues,
`sqrt ((m00 - m11)^2 + 4 * m01^2)`. -/
def gap (M : M2) : ℝ := Real.sqrt ((M.m00 - M.m11) ^ 2 + 4 * M.m01 ^ 2)

/-- First (largest) singular value returned by `scipy.linalg.svd` on the
symmetric matrices with nonnegative trace this notebook constructs: the
larger eigenvalue `(trace + gap) / 2`. -/
def sv1 (M : M2) : ℝ := ((M.m00 + M.m11) + gap M) / 2

/-- Second (smallest) singular value: the absolute value of the smaller
eigenvalue `(trace - gap) / 2`. -/
def sv2 (M : M2) : ℝ := |(M.m00 + M.m11) - gap M| / 2

/-- First column of the matrix `U` of left singular vectors, up to positive
scaling (which `arctan2` ignores): an eigenvector for the eigenvalue
`sv1 M`.  The sign convention (second component nonnegative when `m01 ≠ 0`)
is the fixed representative of the model; the library leaves it
unspecified. -/
def svdU0 (M : M2) : ℝ × ℝ :=
  if M.m01 = 0 then (if M.m11 ≤ M.m00 then (1, 0) else (0, 1))
  else (M.m01, sv1 M - M.m00)

/-- The notebook function `cov_to_ellipse(cov, pos)`:
SVD of `cov`, angle of the first left singular vector in degrees, full axis
lengths `2 * sqrt` of the singular values. -/
def cov_to_ellipse (cov : M2) (pos : ℝ × ℝ) : Ellipse :=
  { xy := pos
    width := 2 * Real.sqrt (sv1 cov)
    height := 2 * Real.sqrt (sv2 cov)
    angle := degrees (arctan2 (svdU0 cov).2 (svdU0 cov).1) }

/-- The covariance matrix `plot_ellipse` builds from a row:
`[[sx^2, pxy*sx*sy], [pxy*sx*sy, sy^2]]`. -/
def rowCov (r : Row) : M2 :=
  ⟨r.sx ^ 2, r.pxy * r.sx * r.sy, r.pxy * r.sx * r.sy, r.sy ^ 2⟩

/-- The notebook function `plot_ellipse(t)`: one ellipse artist per row of
the table, added to the axes in row order (the returned list is the list of
artists in the order they are added). -/
def plot_ellipse (t : List Row) : List Ellipse :=
  t.map (fun r => cov_to_ellipse (rowCov r) (r.x, r.y))

/-! ## Basic facts about the model -/

lemma gap_nonneg (M : M2) : 0 ≤ gap M := Real.sqrt_nonneg _

lemma gap_sq (M : M2) : gap M ^ 2 = (M.m00 - M.m11) ^ 2 + 4 * M.m01 ^ 2 := by
  unfold gap
  rw [Real.sq_sqrt (by positivity)]

lemma sv2_nonneg (M : M2) : 0 ≤ sv2 M := by
  unfold sv2
  positivity

lemma sv2_le_sv1 (M : M2) (hTr : 0 ≤ M.m00 + M.m11) : sv2 M ≤ sv1 M := by
  unfold sv1 sv2
  have hg := gap_nonneg M
  have h1 : |(M.m00 + M.m11) - gap M| ≤ (M.m00 + M.m11) + gap M := by
    rw [abs_sub_le_iff]
    constructor <;> linarith
  linarith

lemma sv1_nonneg (M : M2) (hTr : 0 ≤ M.m00 + M.m11) : 0 ≤ sv1 M := by
  have := sv2_nonneg M
  have := sv2_le_sv1 M hTr
  linarith

lemma rowCov_trace_nonneg (r : Row) :
    0 ≤ (rowCov r).m00 + (rowCov r).m11 := by
  unfold rowCov
  positivity

lemma arctan2_diag (x : ℝ) (hx : 0 < x) : arctan2 x x = Real.pi / 4 := by
  unfold arctan2
  rw [if_pos hx, div_self (ne_of_gt hx), Real.arctan_one]

lemma arctan2_zero_one : arctan2 0 1 = 0 := by
  unfold arctan2
  norm_num

lemma arctan2_one_zero : arctan2 1 0 = Real.pi / 2 := by
  unfold arctan2
  norm_num

lemma arctan2_smul (k y x : ℝ) (hk : 0 < k) :
    arctan2 (k * y) (k * x) = arctan2 y x := by
  have hdiv : k * y / (k * x) = y / x := mul_div_mul_left y x (ne_of_gt hk)
  have hxp : 0 < k * x ↔ 0 < x := by
    constructor
    · intro h; by_contra hc; push_neg at hc; nlinarith
    · intro h; exact mul_pos hk h
  have hxn : k * x < 0 ↔ x < 0 := by
    constructor
    · intro h; by_contra hc; push_neg at hc; nlinarith
    · intro h; exact mul_neg_of_pos_of_neg hk h
  have hyp : 0 < k * y ↔ 0 < y := by
    constructor
    · intro h; by_contra hc; push_neg at hc; nlinarith
    · intro h; exact mul_pos hk h
  have hyn : k * y < 0 ↔ y < 0 := by
    constructor
    · intro h; by_contra hc; push_neg at hc; nlinarith
    · intro h; exact mul_neg_of_pos_of_neg hk h
  have hy0 : 0 ≤ k * y ↔ 0 ≤ y := by
    constructor
    · intro h; by_contra hc; push_neg at hc; nlinarith
    · intro h; exact mul_nonneg (le_of_lt hk) h
  unfold arctan2
  simp only [hxp, hxn, hyp, hyn, hy0, hdiv]

lemma degrees_zero : degrees 0 = 0 := by
  unfold degrees
  ring

lemma degrees_pi_div_four : degrees (Real.pi / 4) = 45 := by
  have h := Real.pi_ne_zero
  unfold degrees
  field_simp
  ring

lemma degrees_pi_div_two : degrees (Real.pi / 2) = 90 := by
  have h := Real.pi_ne_zero
  unfold degrees
  field_simp
  ring

/-! ## Claim C6: nonnegative axis lengths on valid input -/

/-- C6: for every input with `pxy` in `[-1, 1]` and nonnegative `sx`, `sy`,
the width and height returned by `cov_to_ellipse` are both nonnegative. -/
theorem width_height_nonneg (r : Row) (h1 : -1 ≤ r.pxy) (h2 : r.pxy ≤ 1)
    (hx : 0 ≤ r.sx) (hy : 0 ≤ r.sy) (p : ℝ × ℝ) :
    0 ≤ (cov_to_ellipse (rowCov r) p).width ∧
    0 ≤ (cov_to_ellipse (rowCov r) p).height := by
  constructor <;> · simp only [cov_to_ellipse]; positivity

/-- Witness for C6 at a concrete valid input. -/
theorem width_height_nonneg_witness :
    ((-1 : ℝ) ≤ 0 ∧ (0 : ℝ) ≤ 1 ∧ (0 : ℝ) ≤ 1 ∧ (0 : ℝ) ≤ 2) ∧
    (0 ≤ (cov_to_ellipse (rowCov ⟨0, 0, 1, 2, 0⟩) (0, 0)).width ∧
     0 ≤ (cov_to_ellipse (rowCov ⟨0, 0, 1, 2, 0⟩) (0, 0)).height) :=
  ⟨by norm_num,
   width_height_nonneg ⟨0, 0, 1, 2, 0⟩ (by norm_num) (by norm_num)
     (by norm_num) (by norm_num) (0, 0)⟩

/-! ## Claim C9: zero sigmas give a degenerate but valid ellipse -/

/-- C9: for every input with `sx = sy = 0` and any `pxy`, `cov_to_ellipse`
returns normally (the function is total, a singular covariance is not an
error) and the returned width and height are both `0`. -/
theorem degenerate_zero_sigma (x y ρ : ℝ) (p : ℝ × ℝ) :
    (cov_to_ellipse (rowCov ⟨x, y, 0, 0, ρ⟩) p).width = 0 ∧
    (cov_to_ellipse (rowCov ⟨x, y, 0, 0, ρ⟩) p).height = 0 := by
  have hM : rowCov ⟨x, y, 0, 0, ρ⟩ = ⟨0, 0, 0, 0⟩ := by
    unfold rowCov
    simp
  rw [hM]
  unfold cov_to_ellipse sv1 sv2 gap
  norm_num

/-! ## Claim C10: the width is always the major axis -/

/-- C10: for every symmetric input matrix with nonnegative trace (every
covariance matrix this notebook constructs has nonnegative trace), the
singular values of the model are in descending order and the returned
width is at least the returned height: the angle always refers to the
axis of the larger singular value. -/
theorem width_ge_height (M : M2) (hTr : 0 ≤ M.m00 + M.m11) (p : ℝ × ℝ) :
    (cov_to_ellipse M p).height ≤ (cov_to_ellipse M p).width ∧
    sv2 M ≤ sv1 M := by
  refine ⟨?_, sv2_le_sv1 M hTr⟩
  simp only [cov_to_ellipse]
  have h := Real.sqrt_le_sqrt (sv2_le_sv1 M hTr)
  linarith

/-- Witness for C10 at the concrete covariance matrix `[[9, 0], [0, 1]]`. -/
theorem width_ge_height_witness :
    (0 : ℝ) ≤ 9 + 1 ∧
    ((cov_to_ellipse ⟨9, 0, 0, 1⟩ (0, 0)).height ≤
       (cov_to_ellipse ⟨9, 0, 0, 1⟩ (0, 0)).width ∧
     sv2 ⟨9, 0, 0, 1⟩ ≤ sv1 ⟨9, 0, 0, 1⟩) :=
  ⟨by norm_num, width_ge_height ⟨9, 0, 0, 1⟩ (by norm_num) (0, 0)⟩

/-! ## Claim C2: the result is computed from a singular value decomposition -/

lemma gap_le_trace (M : M2) (h00 : 0 ≤ M.m00) (h11 : 0 ≤ M.m11)
    (hPSD : M.m01 ^ 2 ≤ M.m00 * M.m11) : gap M ≤ M.m00 + M.m11 := by
  unfold gap
  rw [show M.m00 + M.m11 = Real.sqrt ((M.m00 + M.m11) ^ 2) from
    (Real.sqrt_sq (by positivity)).symm]
  apply Real.sqrt_le_sqrt
  nlinarith

lemma sv2_psd (M : M2) (h00 : 0 ≤ M.m00) (h11 : 0 ≤ M.m11)
    (hPSD : M.m01 ^ 2 ≤ M.m00 * M.m11) :
    sv2 M = ((M.m00 + M.m11) - gap M) / 2 := by
  unfold sv2
  rw [abs_of_nonneg (by linarith [gap_le_trace M h00 h11 hPSD])]

lemma sv1_char (M : M2) :
    sv1 M ^ 2 - (M.m00 + M.m11) * sv1 M + (M.m00 * M.m11 - M.m01 ^ 2) = 0 := by
  unfold sv1
  linear_combination (1 / 4) * gap_sq M

lemma gap_diag (M : M2) (hb : M.m01 = 0) : gap M = |M.m00 - M.m11| := by
  unfold gap
  rw [hb]
  norm_num
  exact Real.sqrt_sq_eq_abs _

/-- C2: on a symmetric positive-semidefinite matrix, the fields of the
returned ellipse come from a genuine singular value decomposition: the two
model singular values are in descending order, are nonnegative, and have
the trace and determinant of `M` as sum and product (so they are the
eigenvalues of `M`); the modelled first column of `U` is a nonzero
eigenvector of `M` for the largest singular value; and the returned angle
is its `arctan2` in degrees while the axis lengths are `2 * sqrt` of the
two singular values. -/
theorem cov_to_ellipse_svd (M : M2) (pos : ℝ × ℝ)
    (hSym : M.m10 = M.m01) (h00 : 0 ≤ M.m00) (h11 : 0 ≤ M.m11)
    (hPSD : M.m01 ^ 2 ≤ M.m00 * M.m11) :
    sv2 M ≤ sv1 M ∧ 0 ≤ sv2 M ∧
    sv1 M + sv2 M = M.m00 + M.m11 ∧
    sv1 M * sv2 M = M.m00 * M.m11 - M.m01 * M.m10 ∧
    svdU0 M ≠ (0, 0) ∧
    M.m00 * (svdU0 M).1 + M.m01 * (svdU0 M).2 = sv1 M * (svdU0 M).1 ∧
    M.m10 * (svdU0 M).1 + M.m11 * (svdU0 M).2 = sv1 M * (svdU0 M).2 ∧
    (cov_to_ellipse M pos).angle = degrees (arctan2 (svdU0 M).2 (svdU0 M).1) ∧
    (cov_to_ellipse M pos).width = 2 * Real.sqrt (sv1 M) ∧
    (cov_to_ellipse M pos).height = 2 * Real.sqrt (sv2 M) := by
  have hTr : 0 ≤ M.m00 + M.m11 := by positivity
  have hs2 := sv2_psd M h00 h11 hPSD
  have hchar := sv1_char M
  refine ⟨sv2_le_sv1 M hTr, sv2_nonneg M, ?_, ?_, ?_, ?_, ?_, rfl, rfl, rfl⟩
  · rw [hs2]; unfold sv1; ring
  · rw [hs2, hSym]
    unfold sv1
    linear_combination (-1 / 4) * gap_sq M
  · by_cases hb : M.m01 = 0
    · unfold svdU0
      rw [if_pos hb]
      by_cases hd : M.m11 ≤ M.m00 <;> simp [hd, Prod.ext_iff]
    · unfold svdU0
      rw [if_neg hb]
      simp [Prod.ext_iff, hb]
  · by_cases hb : M.m01 = 0
    · unfold svdU0
      rw [if_pos hb]
      have hg := gap_diag M hb
      by_cases hd : M.m11 ≤ M.m00
      · rw [if_pos hd]
        have : gap M = M.m00 - M.m11 := by
          rw [hg, abs_of_nonneg (by linarith)]
        unfold sv1
        rw [this, hb]
        ring
      · rw [if_neg hd]
        rw [hb]
        ring
    · unfold svdU0
      rw [if_neg hb]
      ring
  · by_cases hb : M.m01 = 0
    · unfold svdU0
      rw [if_pos hb]
      have hg := gap_diag M hb
      by_cases hd : M.m11 ≤ M.m00
      · rw [if_pos hd]
        rw [hSym, hb]
        ring
      · rw [if_neg hd]
        have : gap M = M.m11 - M.m00 := by
          rw [hg, abs_of_nonpos (by push_neg at hd; linarith)]
          ring
        unfold sv1
        rw [this, hSym, hb]
        ring
    · unfold svdU0
      rw [if_neg hb]
      rw [hSym]
      linear_combination (-1) * hchar

/-- Witness for C2 at the concrete PSD matrix `[[9, 0], [0, 1]]`. -/
theorem cov_to_ellipse_svd_witness :
    ((0 : ℝ) = 0 ∧ (0 : ℝ) ≤ 9 ∧ (0 : ℝ) ≤ 1 ∧ (0 : ℝ) ^ 2 ≤ 9 * 1) ∧
    (sv2 ⟨9, 0, 0, 1⟩ ≤ sv1 ⟨9, 0, 0, 1⟩ ∧ 0 ≤ sv2 ⟨9, 0, 0, 1⟩ ∧
     sv1 ⟨9, 0, 0, 1⟩ + sv2 ⟨9, 0, 0, 1⟩ =
       (M2.mk 9 0 0 1).m00 + (M2.mk 9 0 0 1).m11 ∧
     sv1 ⟨9, 0, 0, 1⟩ * sv2 ⟨9, 0, 0, 1⟩ =
       (M2.mk 9 0 0 1).m00 * (M2.mk 9 0 0 1).m11 -
         (M2.mk 9 0 0 1).m01 * (M2.mk 9 0 0 1).m10 ∧
     svdU0 ⟨9, 0, 0, 1⟩ ≠ (0, 0) ∧
     (M2.mk 9 0 0 1).m00 * (svdU0 ⟨9, 0, 0, 1⟩).1 +
       (M2.mk 9 0 0 1).m01 * (svdU0 ⟨9, 0, 0, 1⟩).2 =
       sv1 ⟨9, 0, 0, 1⟩ * (svdU0 ⟨9, 0, 0, 1⟩).1 ∧
     (M2.mk 9 0 0 1).m10 * (svdU0 ⟨9, 0, 0, 1⟩).1 +
       (M2.mk 9 0 0 1).m11 * (svdU0 ⟨9, 0, 0, 1⟩).2 =
       sv1 ⟨9, 0, 0, 1⟩ * (svdU0 ⟨9, 0, 0, 1⟩).2 ∧
     (cov_to_ellipse ⟨9, 0, 0, 1⟩ (0, 0)).angle =
       degrees (arctan2 (svdU0 ⟨9, 0, 0, 1⟩).2 (svdU0 ⟨9, 0, 0, 1⟩).1) ∧
     (cov_to_ellipse ⟨9, 0, 0, 1⟩ (0, 0)).width =
       2 * Real.sqrt (sv1 ⟨9, 0, 0, 1⟩) ∧
     (cov_to_ellipse ⟨9, 0, 0, 1⟩ (0, 0)).height =
       2 * Real.sqrt (sv2 ⟨9, 0, 0, 1⟩)) :=
  ⟨by norm_num,
   cov_to_ellipse_svd ⟨9, 0, 0, 1⟩ (0, 0) rfl (by norm_num) (by norm_num)
     (by norm_num)⟩

/-! ## Claim C3: the batch builder preserves order and centers -/

/-- C3: for every list of valid records, `plot_ellipse` produces exactly one
ellipse per record, in input order, and the center of the i-th output is the
position `(x, y)` of the i-th input record. -/
theorem plot_ellipse_order (t : List Row)
    (hValid : ∀ r ∈ t, -1 ≤ r.pxy ∧ r.pxy ≤ 1 ∧ 0 ≤ r.sx ∧ 0 ≤ r.sy) :
    (plot_ellipse t).length = t.length ∧
    ∀ i (hi : i < (plot_ellipse t).length) (hi2 : i < t.length),
      ((plot_ellipse t).get ⟨i, hi⟩).xy =
        ((t.get ⟨i, hi2⟩).x, (t.get ⟨i, hi2⟩).y) := by
  refine ⟨by simp [plot_ellipse], ?_⟩
  intro i hi hi2
  simp [plot_ellipse, cov_to_ellipse, List.get_eq_getElem]

/-- Witness for C3 on a concrete one-row batch. -/
theorem plot_ellipse_order_witness :
    (∀ r ∈ [(⟨1, 2, 1, 1, 0⟩ : Row)],
        -1 ≤ r.pxy ∧ r.pxy ≤ 1 ∧ 0 ≤ r.sx ∧ 0 ≤ r.sy) ∧
    (plot_ellipse [(⟨1, 2, 1, 1, 0⟩ : Row)]).length =
      [(⟨1, 2, 1, 1, 0⟩ : Row)].length ∧
    ((plot_ellipse [(⟨1, 2, 1, 1, 0⟩ : Row)]).get
        ⟨0, by simp [plot_ellipse]⟩).xy = (1, 2) := by
  have hv : ∀ r ∈ [(⟨1, 2, 1, 1, 0⟩ : Row)],
      -1 ≤ r.pxy ∧ r.pxy ≤ 1 ∧ 0 ≤ r.sx ∧ 0 ≤ r.sy := by
    intro r hr
    simp only [List.mem_singleton] at hr
    subst hr
    norm_num
  refine ⟨hv, (plot_ellipse_order [⟨1, 2, 1, 1, 0⟩] hv).1, ?_⟩
  exact (plot_ellipse_order [⟨1, 2, 1, 1, 0⟩] hv).2 0 (by simp [plot_ellipse])
    (by simp)

/-! ## Claim C4: invalid records are processed, not reported -/

lemma rowCov_bad (x y : ℝ) :
    rowCov ⟨x, y, 1, 1, 3 / 2⟩ = ⟨1, 3 / 2, 3 / 2, 1⟩ := by
  unfold rowCov
  norm_num

lemma gap_bad : gap ⟨1, 3 / 2, 3 / 2, 1⟩ = 3 := by
  unfold gap
  rw [show ((1 : ℝ) - 1) ^ 2 + 4 * (3 / 2) ^ 2 = 3 ^ 2 by norm_num,
    Real.sqrt_sq (by norm_num)]

lemma sv1_bad : sv1 ⟨1, 3 / 2, 3 / 2, 1⟩ = 5 / 2 := by
  unfold sv1
  rw [gap_bad]
  norm_num

lemma sv2_bad : sv2 ⟨1, 3 / 2, 3 / 2, 1⟩ = 1 / 2 := by
  unfold sv2
  rw [gap_bad]
  rw [show (1 : ℝ) + 1 - 3 = -1 by norm_num]
  norm_num

/-- C4 (amended): `plot_ellipse` performs no per-record validation: a batch
containing a record with correlation outside `[-1, 1]` is not aborted and no
failure is reported; the output still has one ellipse per record, and the
offending record yields an ordinary `cov_to_ellipse` result like every other
record. -/
theorem plot_ellipse_no_validation (t : List Row) (i : ℕ) (hi : i < t.length)
    (hInvalid : (t.get ⟨i, hi⟩).pxy < -1 ∨ 1 < (t.get ⟨i, hi⟩).pxy)
    (hi2 : i < (plot_ellipse t).length) :
    (plot_ellipse t).length = t.length ∧
    (plot_ellipse t).get ⟨i, hi2⟩ =
      cov_to_ellipse (rowCov (t.get ⟨i, hi⟩))
        ((t.get ⟨i, hi⟩).x, (t.get ⟨i, hi⟩).y) := by
  refine ⟨by simp [plot_ellipse], ?_⟩
  simp [plot_ellipse, List.get_eq_getElem]

/-- Witness for C4 on a concrete one-row batch whose only record has
`pxy = 3/2`. -/
theorem plot_ellipse_no_validation_witness :
    (((([(⟨5, 5, 1, 1, 3 / 2⟩ : Row)]).get ⟨0, by simp⟩).pxy < -1 ∨
       1 < (([(⟨5, 5, 1, 1, 3 / 2⟩ : Row)]).get ⟨0, by simp⟩).pxy) ∧
      0 < ([(⟨5, 5, 1, 1, 3 / 2⟩ : Row)]).length) ∧
    (plot_ellipse [(⟨5, 5, 1, 1, 3 / 2⟩ : Row)]).length =
      [(⟨5, 5, 1, 1, 3 / 2⟩ : Row)].length ∧
    (plot_ellipse [(⟨5, 5, 1, 1, 3 / 2⟩ : Row)]).get
        ⟨0, by simp [plot_ellipse]⟩ =
      cov_to_ellipse (rowCov (([(⟨5, 5, 1, 1, 3 / 2⟩ : Row)]).get ⟨0, by simp⟩))
        ((([(⟨5, 5, 1, 1, 3 / 2⟩ : Row)]).get ⟨0, by simp⟩).x,
         (([(⟨5, 5, 1, 1, 3 / 2⟩ : Row)]).get ⟨0, by simp⟩).y) :=
  ⟨⟨Or.inr (by norm_num), by simp⟩,
   plot_ellipse_no_validation [⟨5, 5, 1, 1, 3 / 2⟩] 0 (by simp)
     (Or.inr (by norm_num)) (by simp [plot_ellipse])⟩

/-- Counterexample for C4 as stated: a three-row batch whose middle record
has `pxy = 3/2` still yields three ellipses (no partial result set, no
failure list); the invalid record produces an ordinary ellipse centered at
its position with strictly positive width. -/
theorem plot_ellipse_invalid_row_counterexample :
    (plot_ellipse
        [⟨0, 0, 1, 1, 0⟩, ⟨5, 5, 1, 1, 3 / 2⟩, ⟨1, 2, 2, 1, 0⟩]).length = 3 ∧
    ((plot_ellipse
        [⟨0, 0, 1, 1, 0⟩, ⟨5, 5, 1, 1, 3 / 2⟩, ⟨1, 2, 2, 1, 0⟩]).get
        ⟨1, by simp [plot_ellipse]⟩).xy = (5, 5) ∧
    0 < ((plot_ellipse
        [⟨0, 0, 1, 1, 0⟩, ⟨5, 5, 1, 1, 3 / 2⟩, ⟨1, 2, 2, 1, 0⟩]).get
        ⟨1, by simp [plot_ellipse]⟩).width := by
  refine ⟨by simp [plot_ellipse], ?_, ?_⟩
  · simp [plot_ellipse, cov_to_ellipse]
  · have hred : ((plot_ellipse
        [⟨0, 0, 1, 1, 0⟩, ⟨5, 5, 1, 1, 3 / 2⟩, ⟨1, 2, 2, 1, 0⟩]).get
        ⟨1, by simp [plot_ellipse]⟩).width =
        2 * Real.sqrt (sv1 (rowCov ⟨5, 5, 1, 1, 3 / 2⟩)) := by
      simp [plot_ellipse, cov_to_ellipse]
    rw [hred, rowCov_bad, sv1_bad]
    positivity

/-! ## Claim C1: a non-PSD covariance does not make the function fail -/

/-- Counterexample for C1 as stated: at `sx = sy = 1`, `pxy = 3/2` (the
covariance `[[1, 3/2], [3/2, 1]]`, eigenvalues `5/2` and `-1/2`),
`cov_to_ellipse` does not fail: there is no error path in the code, the SVD
succeeds with singular values `5/2` and `1/2` (the absolute values of the
eigenvalues), and the function returns an ordinary ellipse of positive
width `2 * sqrt (5/2)`, height `2 * sqrt (1/2)` and angle `45`. -/
theorem cov_to_ellipse_invalid_counterexample :
    (cov_to_ellipse (rowCov ⟨0, 0, 1, 1, 3 / 2⟩) (0, 0)).width =
      2 * Real.sqrt (5 / 2) ∧
    (cov_to_ellipse (rowCov ⟨0, 0, 1, 1, 3 / 2⟩) (0, 0)).height =
      2 * Real.sqrt (1 / 2) ∧
    0 < (cov_to_ellipse (rowCov ⟨0, 0, 1, 1, 3 / 2⟩) (0, 0)).width ∧
    (cov_to_ellipse (rowCov ⟨0, 0, 1, 1, 3 / 2⟩) (0, 0)).angle = 45 := by
  rw [rowCov_bad]
  refine ⟨?_, ?_, ?_, ?_⟩
  · simp [cov_to_ellipse, sv1_bad]
  · simp [cov_to_ellipse, sv2_bad]
  · simp only [cov_to_ellipse]
    rw [sv1_bad]
    positivity
  · have hU : svdU0 ⟨1, 3 / 2, 3 / 2, 1⟩ = (3 / 2, 3 / 2) := by
      unfold svdU0
      rw [if_neg (by norm_num)]
      rw [sv1_bad]
      norm_num
    simp only [cov_to_ellipse]
    rw [hU]
    show degrees (arctan2 (3 / 2) (3 / 2)) = 45
    rw [arctan2_diag (3 / 2) (by norm_num)]
    exact degrees_pi_div_four

/-- C1 (amended): for every input whose implied covariance matrix has a
negative eigenvalue (trace below the eigenvalue gap), `cov_to_ellipse`
returns normally; the width is `2 * sqrt` of the larger eigenvalue and the
height is `2 * sqrt` of the absolute value of the negative eigenvalue, both
nonnegative.  There is no `InvalidCovariance` condition anywhere in the
code. -/
theorem cov_to_ellipse_invalid_returns (r : Row) (p : ℝ × ℝ)
    (hNeg : (rowCov r).m00 + (rowCov r).m11 < gap (rowCov r)) :
    (cov_to_ellipse (rowCov r) p).width = 2 * Real.sqrt (sv1 (rowCov r)) ∧
    (cov_to_ellipse (rowCov r) p).height =
      2 * Real.sqrt ((gap (rowCov r) - ((rowCov r).m00 + (rowCov r).m11)) / 2) ∧
    0 ≤ (cov_to_ellipse (rowCov r) p).width ∧
    0 ≤ (cov_to_ellipse (rowCov r) p).height := by
  have hsv2 : sv2 (rowCov r) =
      (gap (rowCov r) - ((rowCov r).m00 + (rowCov r).m11)) / 2 := by
    unfold sv2
    rw [abs_of_neg (by linarith)]
    ring
  refine ⟨rfl, ?_, ?_, ?_⟩
  · simp only [cov_to_ellipse]
    rw [hsv2]
  · simp only [cov_to_ellipse]
    positivity
  · simp only [cov_to_ellipse]
    positivity

/-- Witness for the amended C1 at `sx = sy = 1`, `pxy = 3/2`. -/
theorem cov_to_ellipse_invalid_returns_witness :
    ((rowCov ⟨0, 0, 1, 1, 3 / 2⟩).m00 + (rowCov ⟨0, 0, 1, 1, 3 / 2⟩).m11 <
      gap (rowCov ⟨0, 0, 1, 1, 3 / 2⟩)) ∧
    ((cov_to_ellipse (rowCov ⟨0, 0, 1, 1, 3 / 2⟩) (0, 0)).width =
      2 * Real.sqrt (sv1 (rowCov ⟨0, 0, 1, 1, 3 / 2⟩)) ∧
     (cov_to_ellipse (rowCov ⟨0, 0, 1, 1, 3 / 2⟩) (0, 0)).height =
      2 * Real.sqrt ((gap (rowCov ⟨0, 0, 1, 1, 3 / 2⟩) -
        ((rowCov ⟨0, 0, 1, 1, 3 / 2⟩).m00 +
          (rowCov ⟨0, 0, 1, 1, 3 / 2⟩).m11)) / 2) ∧
     0 ≤ (cov_to_ellipse (rowCov ⟨0, 0, 1, 1, 3 / 2⟩) (0, 0)).width ∧
     0 ≤ (cov_to_ellipse (rowCov ⟨0, 0, 1, 1, 3 / 2⟩) (0, 0)).height) :=
  ⟨by rw [rowCov_bad, gap_bad]; norm_num,
   cov_to_ellipse_invalid_returns ⟨0, 0, 1, 1, 3 / 2⟩ (0, 0)
     (by rw [rowCov_bad, gap_bad]; norm_num)⟩

/-! ## Claim C7: scaling both sigmas by a positive constant -/

lemma gap_scale (M : M2) (k : ℝ) (hk : 0 ≤ k) :
    gap ⟨k * M.m00, k * M.m01, k * M.m10, k * M.m11⟩ = k * gap M := by
  unfold gap
  rw [show (k * M.m00 - k * M.m11) ^ 2 + 4 * (k * M.m01) ^ 2 =
      k ^ 2 * ((M.m00 - M.m11) ^ 2 + 4 * M.m01 ^ 2) by ring]
  rw [Real.sqrt_mul (by positivity), Real.sqrt_sq hk]

lemma sv1_scale (M : M2) (k : ℝ) (hk : 0 ≤ k) :
    sv1 ⟨k * M.m00, k * M.m01, k * M.m10, k * M.m11⟩ = k * sv1 M := by
  unfold sv1
  rw [gap_scale M k hk]
  ring

lemma sv2_scale (M : M2) (k : ℝ) (hk : 0 ≤ k) :
    sv2 ⟨k * M.m00, k * M.m01, k * M.m10, k * M.m11⟩ = k * sv2 M := by
  unfold sv2
  rw [gap_scale M k hk]
  rw [show k * M.m00 + k * M.m11 - k * gap M =
      k * (M.m00 + M.m11 - gap M) by ring]
  rw [abs_mul, abs_of_nonneg hk]
  ring

lemma svdU0_angle_scale (M : M2) (k : ℝ) (hk : 0 < k) :
    arctan2 (svdU0 ⟨k * M.m00, k * M.m01, k * M.m10, k * M.m11⟩).2
        (svdU0 ⟨k * M.m00, k * M.m01, k * M.m10, k * M.m11⟩).1 =
      arctan2 (svdU0 M).2 (svdU0 M).1 := by
  by_cases hb : M.m01 = 0
  · have hb2 : k * M.m01 = 0 := by rw [hb, mul_zero]
    unfold svdU0
    rw [if_pos hb2, if_pos hb]
    by_cases hd : M.m11 ≤ M.m00
    · rw [if_pos (show k * M.m11 ≤ k * M.m00 by nlinarith), if_pos hd]
    · rw [if_neg (show ¬k * M.m11 ≤ k * M.m00 by
        push_neg
        push_neg at hd
        nlinarith), if_neg hd]
  · unfold svdU0
    rw [if_neg (mul_ne_zero (ne_of_gt hk) hb), if_neg hb]
    show arctan2 (sv1 ⟨k * M.m00, k * M.m01, k * M.m10, k * M.m11⟩ - k * M.m00)
        (k * M.m01) = arctan2 (sv1 M - M.m00) M.m01
    rw [show sv1 ⟨k * M.m00, k * M.m01, k * M.m10, k * M.m11⟩ - k * M.m00 =
        k * (sv1 M - M.m00) by rw [sv1_scale M k hk.le]; ring]
    exact arctan2_smul k (sv1 M - M.m00) M.m01 hk

/-- C7: for every valid input and positive `k`, scaling both `sx` and `sy`
by `k` scales the returned width and height by `k` and leaves the returned
angle unchanged. -/
theorem scale_invariance (r : Row) (k : ℝ) (hk : 0 < k)
    (h1 : -1 ≤ r.pxy) (h2 : r.pxy ≤ 1) (hx : 0 ≤ r.sx) (hy : 0 ≤ r.sy)
    (p : ℝ × ℝ) :
    (cov_to_ellipse (rowCov ⟨r.x, r.y, k * r.sx, k * r.sy, r.pxy⟩) p).width =
      k * (cov_to_ellipse (rowCov r) p).width ∧
    (cov_to_ellipse (rowCov ⟨r.x, r.y, k * r.sx, k * r.sy, r.pxy⟩) p).height =
      k * (cov_to_ellipse (rowCov r) p).height ∧
    (cov_to_ellipse (rowCov ⟨r.x, r.y, k * r.sx, k * r.sy, r.pxy⟩) p).angle =
      (cov_to_ellipse (rowCov r) p).angle := by
  have hscale : rowCov ⟨r.x, r.y, k * r.sx, k * r.sy, r.pxy⟩ =
      ⟨k ^ 2 * (rowCov r).m00, k ^ 2 * (rowCov r).m01,
       k ^ 2 * (rowCov r).m10, k ^ 2 * (rowCov r).m11⟩ := by
    unfold rowCov
    simp only [M2.mk.injEq]
    refine ⟨by ring, by ring, by ring, by ring⟩
  have hk2 : (0 : ℝ) ≤ k ^ 2 := by positivity
  refine ⟨?_, ?_, ?_⟩
  · simp only [cov_to_ellipse]
    rw [hscale, sv1_scale (rowCov r) (k ^ 2) hk2,
      Real.sqrt_mul (by positivity), Real.sqrt_sq hk.le]
    ring
  · simp only [cov_to_ellipse]
    rw [hscale, sv2_scale (rowCov r) (k ^ 2) hk2,
      Real.sqrt_mul (by positivity), Real.sqrt_sq hk.le]
    ring
  · simp only [cov_to_ellipse]
    rw [hscale]
    exact congrArg degrees (svdU0_angle_scale (rowCov r) (k ^ 2) (by positivity))

/-- Witness for C7 at a concrete valid input scaled by `k = 2`. -/
theorem scale_invariance_witness :
    ((0 : ℝ) < 2 ∧ (-1 : ℝ) ≤ 1 / 2 ∧ (1 / 2 : ℝ) ≤ 1 ∧
      (0 : ℝ) ≤ 3 ∧ (0 : ℝ) ≤ 1) ∧
    ((cov_to_ellipse (rowCov ⟨0, 0, 2 * 3, 2 * 1, 1 / 2⟩) (0, 0)).width =
      2 * (cov_to_ellipse (rowCov ⟨0, 0, 3, 1, 1 / 2⟩) (0, 0)).width ∧
     (cov_to_ellipse (rowCov ⟨0, 0, 2 * 3, 2 * 1, 1 / 2⟩) (0, 0)).height =
      2 * (cov_to_ellipse (rowCov ⟨0, 0, 3, 1, 1 / 2⟩) (0, 0)).height ∧
     (cov_to_ellipse (rowCov ⟨0, 0, 2 * 3, 2 * 1, 1 / 2⟩) (0, 0)).angle =
      (cov_to_ellipse (rowCov ⟨0, 0, 3, 1, 1 / 2⟩) (0, 0)).angle) :=
  ⟨by norm_num,
   scale_invariance ⟨0, 0, 3, 1, 1 / 2⟩ 2 (by norm_num) (by norm_num)
     (by norm_num) (by norm_num) (by norm_num) (0, 0)⟩

/-! ## Claim C8: exchanging the two variances with zero correlation -/

lemma rowCov_rho0 (x y sx sy : ℝ) :
    rowCov ⟨x, y, sx, sy, 0⟩ = ⟨sx ^ 2, 0, 0, sy ^ 2⟩ := by
  unfold rowCov
  simp

lemma gap_diag_ge (a c : ℝ) (h : c ≤ a) : gap ⟨a, 0, 0, c⟩ = a - c := by
  rw [gap_diag ⟨a, 0, 0, c⟩ rfl]
  exact abs_of_nonneg (by simp only; linarith)

lemma gap_diag_le (a c : ℝ) (h : a ≤ c) : gap ⟨a, 0, 0, c⟩ = c - a := by
  rw [gap_diag ⟨a, 0, 0, c⟩ rfl]
  show |a - c| = c - a
  rw [abs_of_nonpos (by linarith)]
  ring

lemma sv1_diag_ge (a c : ℝ) (h : c ≤ a) : sv1 ⟨a, 0, 0, c⟩ = a := by
  unfold sv1
  rw [gap_diag_ge a c h]
  show (a + c + (a - c)) / 2 = a
  ring

lemma sv1_diag_le (a c : ℝ) (h : a ≤ c) : sv1 ⟨a, 0, 0, c⟩ = c := by
  unfold sv1
  rw [gap_diag_le a c h]
  show (a + c + (c - a)) / 2 = c
  ring

lemma sv2_diag_ge (a c : ℝ) (h : c ≤ a) : sv2 ⟨a, 0, 0, c⟩ = |c| := by
  unfold sv2
  rw [gap_diag_ge a c h]
  show |a + c - (a - c)| / 2 = |c|
  rw [show a + c - (a - c) = 2 * c by ring, abs_mul]
  norm_num

lemma sv2_diag_le (a c : ℝ) (h : a ≤ c) : sv2 ⟨a, 0, 0, c⟩ = |a| := by
  unfold sv2
  rw [gap_diag_le a c h]
  show |a + c - (c - a)| / 2 = |a|
  rw [show a + c - (c - a) = 2 * a by ring, abs_mul]
  norm_num

lemma angle_diag_wide (a c : ℝ) (h : c ≤ a) (p : ℝ × ℝ) :
    (cov_to_ellipse ⟨a, 0, 0, c⟩ p).angle = 0 := by
  simp only [cov_to_ellipse]
  have hU : svdU0 ⟨a, 0, 0, c⟩ = (1, 0) := by
    unfold svdU0
    rw [if_pos rfl, if_pos h]
  rw [hU]
  show degrees (arctan2 0 1) = 0
  rw [arctan2_zero_one, degrees_zero]

lemma angle_diag_tall (a c : ℝ) (h : a < c) (p : ℝ × ℝ) :
    (cov_to_ellipse ⟨a, 0, 0, c⟩ p).angle = 90 := by
  simp only [cov_to_ellipse]
  have hU : svdU0 ⟨a, 0, 0, c⟩ = (0, 1) := by
    unfold svdU0
    rw [if_pos rfl, if_neg (not_le.mpr h)]
  rw [hU]
  show degrees (arctan2 1 0) = 90
  rw [arctan2_one_zero, degrees_pi_div_two]

/-- Counterexample for C8 as stated: for `sx^2 = 4, sy^2 = 1` exchanged to
`sx^2 = 1, sy^2 = 4` with zero correlation, the two outputs have the same
width `4` and the same height `2`; the width field is strictly the major
axis in both outputs (the singular values are sorted in descending order),
so which field is major versus minor does not swap.  Only the angle moves,
from `0` to `90` degrees. -/
theorem swap_symmetry_counterexample :
    (cov_to_ellipse (rowCov ⟨0, 0, 2, 1, 0⟩) (0, 0)).width = 4 ∧
    (cov_to_ellipse (rowCov ⟨0, 0, 2, 1, 0⟩) (0, 0)).height = 2 ∧
    (cov_to_ellipse (rowCov ⟨0, 0, 1, 2, 0⟩) (0, 0)).width = 4 ∧
    (cov_to_ellipse (rowCov ⟨0, 0, 1, 2, 0⟩) (0, 0)).height = 2 ∧
    (cov_to_ellipse (rowCov ⟨0, 0, 2, 1, 0⟩) (0, 0)).height <
      (cov_to_ellipse (rowCov ⟨0, 0, 2, 1, 0⟩) (0, 0)).width ∧
    (cov_to_ellipse (rowCov ⟨0, 0, 1, 2, 0⟩) (0, 0)).height <
      (cov_to_ellipse (rowCov ⟨0, 0, 1, 2, 0⟩) (0, 0)).width ∧
    (cov_to_ellipse (rowCov ⟨0, 0, 2, 1, 0⟩) (0, 0)).angle = 0 ∧
    (cov_to_ellipse (rowCov ⟨0, 0, 1, 2, 0⟩) (0, 0)).angle = 90 := by
  rw [rowCov_rho0, rowCov_rho0]
  have hw1 : (cov_to_ellipse ⟨(2 : ℝ) ^ 2, 0, 0, (1 : ℝ) ^ 2⟩ (0, 0)).width = 4 := by
    simp only [cov_to_ellipse]
    rw [sv1_diag_ge ((2 : ℝ) ^ 2) ((1 : ℝ) ^ 2) (by norm_num),
      Real.sqrt_sq (by norm_num)]
    norm_num
  have hh1 : (cov_to_ellipse ⟨(2 : ℝ) ^ 2, 0, 0, (1 : ℝ) ^ 2⟩ (0, 0)).height = 2 := by
    simp only [cov_to_ellipse]
    rw [sv2_diag_ge ((2 : ℝ) ^ 2) ((1 : ℝ) ^ 2) (by norm_num)]
    rw [show |(1 : ℝ) ^ 2| = 1 by norm_num, Real.sqrt_one]
    norm_num
  have hw2 : (cov_to_ellipse ⟨(1 : ℝ) ^ 2, 0, 0, (2 : ℝ) ^ 2⟩ (0, 0)).width = 4 := by
    simp only [cov_to_ellipse]
    rw [sv1_diag_le ((1 : ℝ) ^ 2) ((2 : ℝ) ^ 2) (by norm_num),
      Real.sqrt_sq (by norm_num)]
    norm_num
  have hh2 : (cov_to_ellipse ⟨(1 : ℝ) ^ 2, 0, 0, (2 : ℝ) ^ 2⟩ (0, 0)).height = 2 := by
    simp only [cov_to_ellipse]
    rw [sv2_diag_le ((1 : ℝ) ^ 2) ((2 : ℝ) ^ 2) (by norm_num)]
    rw [show |(1 : ℝ) ^ 2| = 1 by norm_num, Real.sqrt_one]
    norm_num
  refine ⟨hw1, hh1, hw2, hh2, ?_, ?_, ?_, ?_⟩
  · rw [hw1, hh1]; norm_num
  · rw [hw2, hh2]; norm_num
  · exact angle_diag_wide ((2 : ℝ) ^ 2) ((1 : ℝ) ^ 2) (by norm_num) (0, 0)
  · exact angle_diag_tall ((1 : ℝ) ^ 2) ((2 : ℝ) ^ 2) (by norm_num) (0, 0)

/-- C8 (amended): with zero correlation and distinct nonnegative sigmas,
exchanging the two variances leaves the returned width and height unchanged
(the singular values are sorted descending, so the width field is the major
axis in both outputs) and changes the returned angle by 90 degrees: the
major axis of the drawn ellipse swaps between the x and the y direction,
but the width and height fields do not swap roles. -/
theorem swap_symmetry (x y sx sy : ℝ) (hx : 0 ≤ sx) (hy : 0 ≤ sy)
    (hne : sx ≠ sy) (p : ℝ × ℝ) :
    (cov_to_ellipse (rowCov ⟨x, y, sy, sx, 0⟩) p).width =
      (cov_to_ellipse (rowCov ⟨x, y, sx, sy, 0⟩) p).width ∧
    (cov_to_ellipse (rowCov ⟨x, y, sy, sx, 0⟩) p).height =
      (cov_to_ellipse (rowCov ⟨x, y, sx, sy, 0⟩) p).height ∧
    |(cov_to_ellipse (rowCov ⟨x, y, sx, sy, 0⟩) p).angle -
      (cov_to_ellipse (rowCov ⟨x, y, sy, sx, 0⟩) p).angle| = 90 := by
  rw [rowCov_rho0, rowCov_rho0]
  rcases lt_or_gt_of_ne hne with h | h
  · have hsq : sx ^ 2 < sy ^ 2 := by nlinarith
    refine ⟨?_, ?_, ?_⟩
    · simp only [cov_to_ellipse]
      rw [sv1_diag_ge (sy ^ 2) (sx ^ 2) hsq.le, sv1_diag_le (sx ^ 2) (sy ^ 2) hsq.le]
    · simp only [cov_to_ellipse]
      rw [sv2_diag_ge (sy ^ 2) (sx ^ 2) hsq.le, sv2_diag_le (sx ^ 2) (sy ^ 2) hsq.le]
    · rw [angle_diag_tall (sx ^ 2) (sy ^ 2) hsq p,
        angle_diag_wide (sy ^ 2) (sx ^ 2) hsq.le p]
      norm_num
  · have hsq : sy ^ 2 < sx ^ 2 := by nlinarith
    refine ⟨?_, ?_, ?_⟩
    · simp only [cov_to_ellipse]
      rw [sv1_diag_le (sy ^ 2) (sx ^ 2) hsq.le, sv1_diag_ge (sx ^ 2) (sy ^ 2) hsq.le]
    · simp only [cov_to_ellipse]
      rw [sv2_diag_le (sy ^ 2) (sx ^ 2) hsq.le, sv2_diag_ge (sx ^ 2) (sy ^ 2) hsq.le]
    · rw [angle_diag_wide (sx ^ 2) (sy ^ 2) hsq.le p,
        angle_diag_tall (sy ^ 2) (sx ^ 2) hsq p]
      norm_num

/-- Witness for the amended C8 at `sx = 2, sy = 1`. -/
theorem swap_symmetry_witness :
    ((0 : ℝ) ≤ 2 ∧ (0 : ℝ) ≤ 1 ∧ (2 : ℝ) ≠ 1) ∧
    ((cov_to_ellipse (rowCov ⟨0, 0, 1, 2, 0⟩) (0, 0)).width =
      (cov_to_ellipse (rowCov ⟨0, 0, 2, 1, 0⟩) (0, 0)).width ∧
     (cov_to_ellipse (rowCov ⟨0, 0, 1, 2, 0⟩) (0, 0)).height =
      (cov_to_ellipse (rowCov ⟨0, 0, 2, 1, 0⟩) (0, 0)).height ∧
     |(cov_to_ellipse (rowCov ⟨0, 0, 2, 1, 0⟩) (0, 0)).angle -
       (cov_to_ellipse (rowCov ⟨0, 0, 1, 2, 0⟩) (0, 0)).angle| = 90) :=
  ⟨by norm_num,
   swap_symmetry 0 0 2 1 (by norm_num) (by norm_num) (by norm_num) (0, 0)⟩

end

end UncertaintyPlotting
